import Mathlib

/-!
Verification model of `src/extension.ts` (bebras-md-vscode).

This file gives a shallow embedding, in Lean, of the stateful core of the
extension: the lint pipeline (`lint`, `getFilenameAndVersionForLinting`),
the debounce scheduler (`suppressLint`, `requestLint`, the `throttle`
record and its timers), the quick-fix code-action bridge
(`BebrasQuickFixProvider.createCommandCodeActions`), the Discord link
lookup (`getDiscordLink`) and the author-completion folder cache
(`getAuthorCompletions`), together with theorems about these definitions.

External collaborators (the VS Code host API, the `bebras` npm library,
`fs`, `JSON.parse`) are modelled at their interface boundary: regular
functions passed in as environment parameters, with JavaScript semantics
(reference equality of document instances, `try`/`finally` control flow,
`setTimeout` timers, exceptions as `Except`) made explicit.

String primitives (`startsWith`, `endsWith`, `split`, first-occurrence
`replace`) are implemented structurally over the character list of the
string, so that every definition evaluates inside the kernel; each mirrors
the semantics of the JavaScript string method the source calls.
-/

/-- JavaScript `s.startsWith(pre)`. -/
def jsStartsWith (s pre : String) : Bool :=
  pre.data.isPrefixOf s.data

/-- JavaScript `s.endsWith(suffix)`. -/
def jsEndsWith (s suffix : String) : Bool :=
  suffix.data.isSuffixOf s.data

/-- Worker for `jsSplitOn`: scans the character list, emitting a piece at
each occurrence of the (non-empty) separator.  `fuel` bounds the number of
steps; every step either consumes at least one character or finishes, so
an initial fuel of `length + 1` is never exhausted. -/
def splitGo (sep : List Char) : Nat → List Char → List Char → List (List Char)
  | 0, l, acc => [acc.reverse ++ l]
  | fuel + 1, l, acc =>
    match l with
    | [] => [acc.reverse]
    | c :: rest =>
      if sep.isPrefixOf (c :: rest) then
        acc.reverse :: splitGo sep fuel (List.drop sep.length (c :: rest)) []
      else
        splitGo sep fuel rest (c :: acc)

/-- JavaScript `s.split(sep)` for a plain string separator (the empty
separator, which the source never passes, returns the string whole). -/
def jsSplitOn (s sep : String) : List String :=
  if sep.data.isEmpty then [s]
  else (splitGo sep.data (s.data.length + 1) s.data []).map (fun cs => String.mk cs)

/-- Join a list of strings with a separator between elements. -/
def joinSep (sep : String) : List String → String
  | [] => ""
  | [x] => x
  | x :: xs => x ++ sep ++ joinSep sep xs

/-- JavaScript `s.replace(pat, rep)` with a plain string pattern: only the
first occurrence is replaced. -/
def replaceFirst (s pat rep : String) : String :=
  match jsSplitOn s pat with
  | [] => s
  | [_] => s
  | p :: q :: rest => p ++ rep ++ joinSep pat (q :: rest)

/-- A text document as seen through the VS Code API.  `instId` models the
JavaScript object identity of the `TextDocument` instance: distinct live
instances (for example a document closed and then reopened under the same
path) always carry distinct `instId`s, so structure equality on this type
models the `===` reference comparison used by the source. -/
structure TextDocument where
  instId : Nat
  languageId : String
  fsPath : String
  text : String
deriving DecidableEq

/-- Severity of a published diagnostic (`vscode.DiagnosticSeverity`). -/
inductive DiagnosticSeverity
  | error
  | warning
deriving DecidableEq

/-- The `QuickFix` tagged union from `bebras/out/check`: the source
dispatches on `quickFix._type === "replacement"` and
`quickFix._type === "additions"`; these are the only two tags of the
external type. -/
inductive QuickFix
  | replacement (values : List String)
  | additions (newValues : List String)
deriving DecidableEq

/-- A published diagnostic.  `start`/`endPos` keep the character offsets of
the source record (`doc.positionAt` merely converts these offsets to
line/column positions on the host side).  `code` is the `diag.code` field
and `quickFix` the optional payload attached by `lint`. -/
structure Diagnostic where
  start : Nat
  endPos : Nat
  msg : String
  severity : DiagnosticSeverity
  code : String
  quickFix : Option QuickFix
deriving DecidableEq

/-- One record of the external validator output
(`bebras.check.check` result element): a `type` string, a character-offset
span, a message and an optional quick-fix payload. -/
structure CheckOutput where
  type : String
  start : Nat
  endPos : Nat
  msg : String
  quickFix : Option QuickFix
deriving DecidableEq

/-- Environment of external collaborators used by the lint pipeline.

* `taskFileExtension` is the constant `bebras.patterns.taskFileExtension`.
* `prologueExec prologue` models `bebras.patterns.prologue.exec`:
  `none` when the regex does not match, `some v` when it matches with
  optional named group `version = v`.
* `check text filePath strict version` models the call
  `bebras.check.check(text, filePath, strictChecks, undefined, version)`;
  `Except.error` models the call throwing.  (The constant fourth
  `undefined` argument of the source call is omitted.)
* `strictChecks` is the value read from
  `vscode.workspace.getConfiguration("bebras").get("strictChecks", false)`. -/
structure LintEnv where
  taskFileExtension : String
  prologueExec : String → Option (Option String)
  check : String → String → Bool → String → Except String (List CheckOutput)
  strictChecks : Bool

/-- Direct translation of `isTaskDocument`:
`doc.languageId === "markdown" && doc.uri.fsPath.endsWith(bebras.patterns.taskFileExtension)`. -/
def isTaskDocument (env : LintEnv) (doc : TextDocument) : Bool :=
  doc.languageId == "markdown" && jsEndsWith doc.fsPath env.taskFileExtension

/-- Text of the range `(0,0)-(2,0)` of a document, i.e. the first two lines
including their line breaks (the `prologueRange` of
`getFilenameAndVersionForLinting`); the range is clamped to the document. -/
def prologueTextOf (s : String) : String :=
  let ls := jsSplitOn s "\n"
  if ls.length ≤ 2 then s else joinSep "\n" (ls.take 2) ++ "\n"

/-- Translation of `getFilenameAndVersionForLinting`: gate (a) is
`isTaskDocument`, gate (b) is the prologue regex match; on success the
file path and the extracted version (named group `version`, defaulting to
`"1.0"`) are returned. -/
def getFilenameAndVersionForLinting (env : LintEnv) (doc : TextDocument) :
    Option (String × String) :=
  if !(isTaskDocument env doc) then none
  else
    let filePath := doc.fsPath
    let prologue := prologueTextOf doc.text
    match env.prologueExec prologue with
    | none => none
    | some m => some (filePath, m.getD "1.0")

/-- The constant `DiagCode = "bebras"`. -/
def DiagCode : String := "bebras"

/-- The `switch (o.type)` of `lint`: `"error"` maps to `Error`, `"warn"`
and every other value fall through to the `default` branch, `Warning`. -/
def severityFor (type : String) : DiagnosticSeverity :=
  if type = "error" then DiagnosticSeverity.error
  else if type = "warn" then DiagnosticSeverity.warning
  else DiagnosticSeverity.warning

/-- Body of the `for (const o of outputs)` loop of `lint`: build the
diagnostic for one validator record (offsets kept, severity via the
switch, `code = DiagCode`, quick-fix payload copied when present). -/
def mkDiag (o : CheckOutput) : Diagnostic :=
  { start := o.start
    endPos := o.endPos
    msg := o.msg
    severity := severityFor o.type
    code := DiagCode
    quickFix := o.quickFix }

/-- The `try` block of `lint`: value is the list `diags` accumulated when
control leaves the block (`.ok` for normal completion or the early
`return`, `.error` when the validator call throws — at which point no
diagnostic has been pushed yet). -/
def lintTryBody (env : LintEnv) (doc : TextDocument) :
    Except String (List Diagnostic) :=
  match getFilenameAndVersionForLinting env doc with
  | none => Except.ok []
  | some (filePath, version) =>
    match env.check doc.text filePath env.strictChecks version with
    | Except.error e => Except.error e
    | Except.ok outputs => Except.ok (outputs.map mkDiag)

/-- The list `diags` that reaches the `finally` block of `lint` on the
given control path: the accumulated diagnostics on normal completion or
early return, the diagnostics accumulated before the throw (none) when the
validator throws. -/
def lintResult (env : LintEnv) (doc : TextDocument) : List Diagnostic :=
  match lintTryBody env doc with
  | Except.ok ds => ds
  | Except.error _ => []

/-- The sequence of `diagnosticCollection.set` calls performed by one call
to `lint`: the source contains exactly one such call, in the `finally`
block, which JavaScript runs on every control path (normal completion,
early `return`, and thrown error). -/
def lintCalls (env : LintEnv) (doc : TextDocument) :
    List (String × List Diagnostic) :=
  [(doc.fsPath, lintResult env doc)]

/-- The diagnostic collection, keyed by document identity (`doc.uri`,
represented by its `fsPath`); `none` means no set was ever published for
that key. -/
def DiagStore : Type := String → Option (List Diagnostic)

/-- Effect of one `lint` call on the diagnostic collection: each `set`
call of `lintCalls` replaces the entry for its key wholesale. -/
def lintRun (env : LintEnv) (doc : TextDocument) (store : DiagStore) : DiagStore :=
  (lintCalls env doc).foldl
    (fun s c => fun uri => if uri = c.1 then some c.2 else s uri) store

/-- The debounce quiet period, `throttleDuration = 500`. -/
def throttleDuration : Nat := 500

/-- One armed `setTimeout` timer: its handle (`id`), the document captured
by the callback closure (`() => { lint(document); suppressLint(document) }`),
and the time at which it becomes due (arming time plus
`throttleDuration`). -/
structure Timer where
  id : Nat
  doc : TextDocument
  deadline : Nat
deriving DecidableEq

/-- State of the throttle machinery together with the surrounding
JavaScript timer table and an observation log.

* `throttleDoc` / `throttleTimeout` are the two fields of the module-level
  `throttle` record (`null` is `none`).
* `timers` is the set of currently armed timers of the JavaScript runtime,
  in arming order; `nextId` supplies fresh timer handles.
* `lints` records, in order, each invocation of `lint` performed by a
  firing timer callback, as (time fired, document). -/
structure ThrottleSim where
  throttleDoc : Option TextDocument
  throttleTimeout : Option Nat
  timers : List Timer
  nextId : Nat
  lints : List (Nat × TextDocument)
deriving DecidableEq

/-- Translation of `suppressLint(document)`:
`if (throttle.timeout && (document === throttle.document))` then
`clearTimeout(throttle.timeout)` (the timer disappears from the armed set)
and both `throttle` fields are reset to `null`. -/
def suppressLint (st : ThrottleSim) (document : TextDocument) : ThrottleSim :=
  match st.throttleTimeout, st.throttleDoc with
  | some timeoutId, some d =>
    if document = d then
      { st with
        timers := st.timers.filter (fun tm => tm.id ≠ timeoutId)
        throttleDoc := none
        throttleTimeout := none }
    else st
  | _, _ => st

/-- Translation of `requestLint(document)`: first `suppressLint(document)`,
then `throttle.document = document` and
`throttle.timeout = setTimeout(..., throttleDuration)`, which arms a fresh
timer due `throttleDuration` after the current time whose callback runs
`lint(document)` followed by `suppressLint(document)` on the captured
`document`. -/
def requestLint (st : ThrottleSim) (document : TextDocument) (now : Nat) : ThrottleSim :=
  let st1 := suppressLint st document
  { st1 with
    throttleDoc := some document
    throttleTimeout := some st1.nextId
    timers := st1.timers ++ [⟨st1.nextId, document, now + throttleDuration⟩]
    nextId := st1.nextId + 1 }

/-- A timer fires: the runtime removes it from the armed set, and its
callback runs `lint(document)` — recorded in the log at the timer's due
time — and then `suppressLint(document)`, both on the document captured
when the timer was armed (the source comments that `throttle.document`
may have changed by now and must not be used). -/
def fireTimer (st : ThrottleSim) (tm : Timer) : ThrottleSim :=
  let st1 := { st with
    timers := st.timers.filter (fun x => x.id ≠ tm.id)
    lints := st.lints ++ [(tm.deadline, tm.doc)] }
  suppressLint st1 tm.doc

/-- The armed timer that fires next: smallest deadline, ties broken by
arming order (the order of the `timers` list). -/
def pickNext (timers : List Timer) : Option Timer :=
  timers.foldl
    (fun acc tm =>
      match acc with
      | none => some tm
      | some best => if tm.deadline < best.deadline then some tm else acc)
    none

/-- Fire, in deadline order, every armed timer that is due at time `now`.
`fuel` bounds the number of firings; each firing removes at least the
fired timer from the armed set, so a fuel equal to the number of armed
timers is never exhausted. -/
def fireDueFuel : Nat → ThrottleSim → Nat → ThrottleSim
  | 0, st, _ => st
  | fuel + 1, st, now =>
    match pickNext st.timers with
    | none => st
    | some tm => if tm.deadline ≤ now then fireDueFuel fuel (fireTimer st tm) now else st

/-- Run the event loop up to time `now`: every timer with deadline at most
`now` fires (at its own due time) before anything scheduled at `now` is
processed. -/
def fireDue (st : ThrottleSim) (now : Nat) : ThrottleSim :=
  fireDueFuel st.timers.length st now

/-- Largest deadline among the armed timers. -/
def maxDeadline (timers : List Timer) : Nat :=
  timers.foldl (fun a tm => max a tm.deadline) 0

/-- Let the event loop run to quiescence: every remaining armed timer
fires. -/
def flushAll (st : ThrottleSim) : ThrottleSim :=
  fireDue st (maxDeadline st.timers)

/-- The state at activation: `throttle = { document: null, timeout: null }`,
no armed timers, nothing linted. -/
def initThrottle : ThrottleSim :=
  ⟨none, none, [], 0, []⟩

/-- Process a time-stamped list of `requestLint` calls (times
non-decreasing): before each call, the event loop first fires every timer
already due. -/
def runRequests : ThrottleSim → List (Nat × TextDocument) → ThrottleSim
  | st, [] => st
  | st, (t, d) :: rest => runRequests (requestLint (fireDue st t) d t) rest

/-- Full scenario: start from the activation state, process the requests,
then let the event loop run until no timer remains due. -/
def runSchedule (requests : List (Nat × TextDocument)) : ThrottleSim :=
  flushAll (runRequests initThrottle requests)

/-- The armed state reached right after `requestLint` ran at time `t` for
document `d` with `k` timer handles already used: the throttle tracks
timer `k` for `d`, due at `t + throttleDuration`, and nothing has been
linted. -/
def armedState (d : TextDocument) (t k : Nat) : ThrottleSim :=
  { throttleDoc := some d
    throttleTimeout := some k
    timers := [⟨k, d, t + throttleDuration⟩]
    nextId := k + 1
    lints := [] }

/-- A `vscode.Position`: zero-based line and character. -/
structure Position where
  line : Nat
  character : Nat
deriving DecidableEq

/-- A `vscode.Range`, as passed to the code-action provider (`stop` is the
`end` position). -/
structure Range where
  start : Position
  stop : Position
deriving DecidableEq

/-- One workspace-edit operation recorded on a code action:
`edit.replace(uri, range, newText)` (the range being the diagnostic's
offset span) or `edit.insert(uri, pos, newText)`. -/
inductive EditOp
  | replace (uri : String) (startOffset endOffset : Nat) (newText : String)
  | insert (uri : String) (pos : Position) (newText : String)
deriving DecidableEq

/-- A `vscode.CodeAction` of kind QuickFix: title, attached diagnostics,
and the operations of its `WorkspaceEdit`. -/
structure CodeAction where
  title : String
  diagnostics : List Diagnostic
  edit : List EditOp
deriving DecidableEq

/-- The line array of a document: `doc.lineAt(n).text` is entry `n`, and
`doc.lineCount` is the length.  (A trailing newline yields a final empty
line, exactly as in VS Code.) -/
def docLines (doc : TextDocument) : List String :=
  jsSplitOn doc.text "\n"

/-- The `while ((line = doc.lineAt(lineNum)).text.startsWith(" ")) lineNum++`
loop of the `additions` branch: starting at line `i`, skip lines beginning
with a space; `.ok n` is the first line from `i` on that does not begin
with a space, `.error ()` models `doc.lineAt` throwing because the loop
ran past the last line (`lineAt` requires a line number below
`lineCount`).  `fuel` bounds the iterations; each one moves one line
forward, so the initial fuel of `scanFrom` is never exhausted. -/
def scanGo (lines : List String) : Nat → Nat → Except Unit Nat
  | _, 0 => Except.error ()
  | i, fuel + 1 =>
    if i < lines.length then
      if jsStartsWith (lines.getD i "") " " then scanGo lines (i + 1) fuel
      else Except.ok i
    else Except.error ()

/-- The forward line scan of the `additions` branch, started at line `i`. -/
def scanFrom (lines : List String) (i : Nat) : Except Unit Nat :=
  scanGo lines i (lines.length + 1 - i)

/-- The sequence of line numbers the scan passes to `doc.lineAt`, in
order: every skipped indented line, then the line on which the loop stops
— either the first non-indented line or, when the scan runs past the
document, the out-of-range number `lines.length` whose `lineAt` call
throws. -/
def scanCallsGo (lines : List String) : Nat → Nat → List Nat
  | i, 0 => [i]
  | i, fuel + 1 =>
    if i < lines.length then
      if jsStartsWith (lines.getD i "") " " then i :: scanCallsGo lines (i + 1) fuel
      else [i]
    else [i]

/-- The `doc.lineAt` requests issued by the scan started at line `i`. -/
def scanCalls (lines : List String) (i : Nat) : List Nat :=
  scanCallsGo lines i (lines.length + 1 - i)

/-- Translation of `BebrasQuickFixProvider.createCommandCodeActions`:

* no `quickFix` payload on the diagnostic: no action;
* `replacement`: one action per candidate value, each with a single edit
  replacing the diagnostic's range by that value;
* `additions`: scan forward from `range.start.line + 1` while lines start
  with a space (`Except.error` when `doc.lineAt` throws past the last
  line), then a single action with a single edit inserting, at the start
  of the line on which the scan stopped
  (`line.rangeIncludingLineBreak.start`), one `"  - " + value + "\n"` line
  per new value. -/
def createCommandCodeActions (doc : TextDocument) (diag : Diagnostic) (range : Range) :
    Except Unit (List CodeAction) :=
  match diag.quickFix with
  | none => Except.ok []
  | some (QuickFix.replacement values) =>
    Except.ok (values.map fun replacement =>
      { title := "Replace with '" ++ replacement ++ "'"
        diagnostics := [diag]
        edit := [EditOp.replace doc.fsPath diag.start diag.endPos replacement] })
  | some (QuickFix.additions newValues) =>
    match scanFrom (docLines doc) (range.start.line + 1) with
    | Except.error e => Except.error e
    | Except.ok lineNum =>
      Except.ok [{ title := "Insert missing values"
                   diagnostics := [diag]
                   edit := [EditOp.insert doc.fsPath ⟨lineNum, 0⟩
                     (String.join (newValues.map fun v => "  - " ++ v ++ "\n"))] }]

/-- A JSON value, as produced by `JSON.parse`. -/
inductive Json
  | null
  | bool (b : Bool)
  | num (n : Int)
  | str (s : String)
  | arr (elems : List Json)
  | obj (fields : List (String × Json))

/-- JavaScript property access `j[k]` on a parsed JSON value: `none` is
`undefined`.  On objects the last field with the given key wins (as after
`JSON.parse` of duplicate keys); on arrays a numeric key indexes the
array; every other value has no own properties. -/
def jget (j : Json) (k : String) : Option Json :=
  match j with
  | Json.obj fields => ((fields.reverse).find? (fun f => f.1 == k)).map (fun f => f.2)
  | Json.arr elems => k.toNat?.bind (fun n => elems[n]?)
  | _ => none

/-- Whether `typeof x === "object"` holds for a defined, non-null value:
true exactly for arrays and objects (`null` itself is handled separately
by the source's `=== null` test). -/
def jsObjectLike : Json → Bool
  | Json.arr _ => true
  | Json.obj _ => true
  | _ => false

/-- JavaScript string coercion of a JSON value, as applied by
`String.prototype.replace` to its replacement argument.  Only the string
case is exercised by a well-formed channel map; the remaining cases
approximate JavaScript's `toString`. -/
def jsToStr : Json → String
  | Json.str s => s
  | Json.num n => toString n
  | Json.bool true => "true"
  | Json.bool false => "false"
  | Json.null => "null"
  | Json.arr _ => ""
  | Json.obj _ => "[object Object]"

/-- The shape of the module-level `DiscordLinkCache` once loaded:
`urlPattern` and `serverId` are the two checked strings and `channelIds`
the raw id-to-channel value (checked to be non-null and object-like). -/
structure DiscordCache where
  urlPattern : String
  serverId : String
  channelIds : Json

/-- The lookup performed after the cache is populated: read
`channelIds[taskId]`; `undefined` yields no link, otherwise substitute the
server id and then the channel id into the URL template (each
`String.replace` call rewrites the first occurrence of its pattern). -/
def discordSubst (cache : DiscordCache) (taskId : String) : Option String :=
  match jget cache.channelIds taskId with
  | none => none
  | some channelId =>
    some (replaceFirst (replaceFirst cache.urlPattern "${serverId}" cache.serverId)
      "${channelId}" (jsToStr channelId))

/-- The malformed-JSON test and cache construction of `getDiscordLink`:
`none` when `channelsData.urlPattern` or `channelsData.serverId` is not a
string (`!isString(...)`), or `channelsData.channelIds` is `undefined` or
`null` (`=== null`) or not object-like (`typeof ... !== "object"`);
otherwise the populated `DiscordLinkCache` value. -/
def loadDiscordCache (channelsData : Json) : Option DiscordCache :=
  match jget channelsData "urlPattern", jget channelsData "serverId",
      jget channelsData "channelIds" with
  | some (Json.str urlPattern), some (Json.str serverId), some channelIds =>
    match channelIds with
    | Json.null => none
    | cids =>
      if jsObjectLike cids then some ⟨urlPattern, serverId, cids⟩ else none
  | _, _, _ => none

/-- Translation of `getDiscordLink(folderPath, taskId)`.

* `fs path` models `fs.existsSync` plus `fs.promises.readFile`: `some`
  is the file's content, `none` a missing file.
* `parseJson` models `JSON.parse`; `none` means the content is
  unparsable, in which case `JSON.parse` throws — the source does not
  catch this, so the exception propagates (`Except.error`).
* `cache` is the module-level `DiscordLinkCache` (`none` = not yet
  loaded); the result carries the possibly-updated cache alongside the
  returned value.

When the cache must be loaded: a missing file returns `undefined`; a
parsed value rejected by the malformed-JSON test (`loadDiscordCache`)
is logged and returns `undefined`; otherwise the cache is populated and
the lookup proceeds as in `discordSubst`. -/
def getDiscordLink (fs : String → Option String) (parseJson : String → Option Json)
    (cache : Option DiscordCache) (folderPath taskId : String) :
    Except Unit (Option DiscordCache × Option String) :=
  match cache with
  | some c => Except.ok (some c, discordSubst c taskId)
  | none =>
    let channelsFile := folderPath ++ "/discord_channels.json"
    match fs channelsFile with
    | none => Except.ok (none, none)
    | some content =>
      match parseJson content with
      | none => Except.error ()
      | some channelsData =>
        match loadDiscordCache channelsData with
        | none => Except.ok (none, none)
        | some c => Except.ok (some c, discordSubst c taskId)

/-- Decidable equality for `Except` results. -/
instance {ε α : Type} [DecidableEq ε] [DecidableEq α] : DecidableEq (Except ε α) := fun x y =>
  match x, y with
  | Except.ok a, Except.ok b =>
    if h : a = b then isTrue (by rw [h]) else isFalse (fun hc => h (Except.ok.inj hc))
  | Except.error a, Except.error b =>
    if h : a = b then isTrue (by rw [h]) else isFalse (fun hc => h (Except.error.inj hc))
  | Except.ok _, Except.error _ => isFalse (fun hc => Except.noConfusion hc)
  | Except.error _, Except.ok _ => isFalse (fun hc => Except.noConfusion hc)

/-- The module-level `AuthorCompletionCache`, a map from folder path to
completion list, represented as an association list with unique keys. -/
abbrev AuthorCache : Type := List (String × List String)

/-- `AuthorCompletionCache.get(folderPath)` (`undefined` is `none`). -/
def cacheGet (cache : AuthorCache) (k : String) : Option (List String) :=
  (cache.find? (fun p => p.1 == k)).map (fun p => p.2)

/-- `AuthorCompletionCache.set(folderPath, completions)`: replace the
entry when present, append otherwise. -/
def cacheSet (cache : AuthorCache) (k : String) (v : List String) : AuthorCache :=
  if (cache.find? (fun p => p.1 == k)).isSome then
    cache.map (fun p => if p.1 == k then (k, v) else p)
  else cache ++ [(k, v)]

/-- Strip one trailing carriage return. -/
def stripTrailingCR (l : String) : String :=
  if jsEndsWith l "\r" then String.mk l.data.dropLast else l

/-- Strip a trailing `\r` from every piece except the last (those pieces
were followed by a `\n` in the original string). -/
def splitDropCR : List String → List String
  | [] => []
  | [x] => [x]
  | x :: xs => stripTrailingCR x :: splitDropCR xs

/-- JavaScript `lines.split(/\r?\n/)`: split at every `\n`, each
consuming an immediately preceding `\r`. -/
def splitCRLF (s : String) : List String :=
  splitDropCR (jsSplitOn s "\n")

/-- Translation of `getAuthorCompletions(folderPath)`: return the cached
list when the cache holds one; otherwise read the optional
`authors_completion.txt` of the folder (`fs` models `fs.existsSync` plus
`fs.promises.readFile`; a missing file yields the empty list), split it
on line boundaries of either convention, keep the non-empty lines, store
the result in the cache and return it together with the updated cache. -/
def getAuthorCompletions (fs : String → Option String) (cache : AuthorCache)
    (folderPath : String) : AuthorCache × List String :=
  match cacheGet cache folderPath with
  | some completions => (cache, completions)
  | none =>
    let completionFile := folderPath ++ "/authors_completion.txt"
    let completions :=
      match fs completionFile with
      | some lines => (splitCRLF lines).filter (fun l => l.length > 0)
      | none => []
    (cacheSet cache folderPath completions, completions)

theorem fireDue_armed_of_not_due (d : TextDocument) (u k now : Nat)
    (h : now < u + throttleDuration) : fireDue (armedState d u k) now = armedState d u k := by
  have hx : ¬ (u + throttleDuration ≤ now) := by omega
  simp [fireDue, armedState, fireDueFuel, pickNext, hx]

theorem requestLint_init (d : TextDocument) (t : Nat) :
    requestLint initThrottle d t = armedState d t 0 := rfl

theorem requestLint_armed_step (d : TextDocument) (u k now : Nat)
    (h : now < u + throttleDuration) :
    requestLint (fireDue (armedState d u k) now) d now = armedState d now (k + 1) := by
  rw [fireDue_armed_of_not_due d u k now h]
  simp [requestLint, suppressLint, armedState]

theorem runRequests_armed (d : TextDocument) : ∀ (ts : List Nat) (t k : Nat),
    List.Chain' (fun a b => a ≤ b ∧ b < a + throttleDuration) (t :: ts) →
    runRequests (armedState d t k) (ts.map (fun u => (u, d)))
      = armedState d (ts.getLastD t) (k + ts.length) := by
  intro ts
  induction ts with
  | nil => intro t k _; simp [runRequests]
  | cons u rest ih =>
    intro t k h
    rw [List.chain'_cons] at h
    have hstep := requestLint_armed_step d t k u h.1.2
    simp only [List.map_cons, runRequests, hstep]
    rw [ih u (k + 1) h.2]
    have hL : k + (u :: rest).length = (k + 1) + rest.length := by
      simp [List.length_cons]; omega
    rw [List.getLastD_cons, hL]

theorem flushAll_armed (d : TextDocument) (t k : Nat) :
    (flushAll (armedState d t k)).lints = [(t + throttleDuration, d)] := by
  simp [flushAll, fireDue, armedState, fireDueFuel, pickNext, maxDeadline, fireTimer,
    suppressLint]

/-- C3: starting idle, any sequence of `requestLint` calls for the same
document, each issued within one quiet period of the previous one, yields
exactly one lint invocation, fired one quiet period after the last call. -/
theorem C3_debounce_coalescing (d : TextDocument) (t : Nat) (ts : List Nat)
    (h : List.Chain' (fun a b => a ≤ b ∧ b < a + throttleDuration) (t :: ts)) :
    (runSchedule ((t :: ts).map (fun u => (u, d)))).lints
      = [(ts.getLastD t + throttleDuration, d)] := by
  unfold runSchedule
  simp only [List.map_cons, runRequests]
  have h0 : fireDue initThrottle t = initThrottle := rfl
  rw [h0, requestLint_init, runRequests_armed d ts t 0 h, flushAll_armed]

/-- Witness for C3: edits at t = 0, 100, 200 with quiet duration 500
produce exactly one lint, at t = 700. -/
theorem C3_debounce_coalescing_witness :
    List.Chain' (fun a b => a ≤ b ∧ b < a + throttleDuration) [0, 100, 200] ∧
    (runSchedule ([0, 100, 200].map (fun u => (u, (⟨0, "markdown", "a.task.md", ""⟩ : TextDocument))))).lints
      = [(700, ⟨0, "markdown", "a.task.md", ""⟩)] := by
  have hch : List.Chain' (fun a b => a ≤ b ∧ b < a + throttleDuration) [0, 100, 200] := by
    norm_num [List.chain'_cons, List.chain'_singleton, throttleDuration]
  refine ⟨hch, ?_⟩
  have h := C3_debounce_coalescing ⟨0, "markdown", "a.task.md", ""⟩ 0 [100, 200] hch
  have h2 : List.getLastD [100, 200] 0 + throttleDuration = 700 := rfl
  rw [h2] at h
  exact h

/-- C1 counterexample: after `requestLint` for one document and then
`requestLint` for a different document, two timers are armed at once —
`suppressLint` inside the second `requestLint` only cancels a pending
timer for the *same* document, so the first document's timer is orphaned
rather than cancelled — and the event loop then fires both, linting both
documents.  This refutes the claimed invariant that at most one pending
validation timer exists and that `requestLint(doc)` first cancels a timer
armed for a different document. -/
theorem C1_throttle_cex :
    (requestLint (requestLint initThrottle ⟨0, "markdown", "a.task.md", ""⟩ 0)
      ⟨1, "markdown", "b.task.md", ""⟩ 0).timers.length = 2 ∧
    (flushAll (requestLint (requestLint initThrottle ⟨0, "markdown", "a.task.md", ""⟩ 0)
      ⟨1, "markdown", "b.task.md", ""⟩ 0)).lints
      = [(500, ⟨0, "markdown", "a.task.md", ""⟩), (500, ⟨1, "markdown", "b.task.md", ""⟩)] := by
  decide

/-- C1 amended: after `requestLint st doc now`, the throttle record tracks
the freshly armed timer and that timer is for the pending document `doc`;
the previously tracked timer is cancelled exactly when it was armed for
`doc` itself, while a timer tracked for a different document is left in
the armed set (orphaned, no longer tracked), so more than one timer can be
armed at once. -/
theorem C1_requestLint_amended (st : ThrottleSim) (document : TextDocument) (now t : Nat)
    (d0 : TextDocument) (htm : st.throttleTimeout = some t) (hdoc : st.throttleDoc = some d0) :
    (requestLint st document now).throttleDoc = some document ∧
    (requestLint st document now).throttleTimeout = some st.nextId ∧
    (requestLint st document now).nextId = st.nextId + 1 ∧
    (document = d0 → (requestLint st document now).timers
        = st.timers.filter (fun tm => tm.id ≠ t)
          ++ [⟨st.nextId, document, now + throttleDuration⟩]) ∧
    (document ≠ d0 → (requestLint st document now).timers
        = st.timers ++ [⟨st.nextId, document, now + throttleDuration⟩]) := by
  unfold requestLint suppressLint
  rw [htm, hdoc]
  by_cases h : document = d0 <;> simp [h]

/-- Witness for the amended C1 theorem: requesting a lint for a second
document while the first one's timer is pending tracks the new timer and
leaves the old timer armed. -/
theorem C1_requestLint_amended_witness :
    (requestLint (armedState ⟨0, "markdown", "a.task.md", ""⟩ 0 0)
      ⟨1, "markdown", "b.task.md", ""⟩ 0).throttleDoc = some ⟨1, "markdown", "b.task.md", ""⟩ ∧
    (requestLint (armedState ⟨0, "markdown", "a.task.md", ""⟩ 0 0)
      ⟨1, "markdown", "b.task.md", ""⟩ 0).timers
      = (armedState ⟨0, "markdown", "a.task.md", ""⟩ 0 0).timers
        ++ [⟨1, ⟨1, "markdown", "b.task.md", ""⟩, 0 + throttleDuration⟩] := by
  have h := C1_requestLint_amended (armedState ⟨0, "markdown", "a.task.md", ""⟩ 0 0)
    ⟨1, "markdown", "b.task.md", ""⟩ 0 0 ⟨0, "markdown", "a.task.md", ""⟩ rfl rfl
  exact ⟨h.1, h.2.2.2.2 (by decide)⟩

/-- C5: with a timer tracked for pending document `d0`, `suppressLint doc`
cancels it exactly when `doc` is the very same document instance
(reference equality); called with a different instance — in particular
one with the same file path — it changes nothing, and the pending timer
still fires, linting `d0`. -/
theorem C5_suppress_identity (st : ThrottleSim) (document d0 : TextDocument) (t : Nat)
    (hdoc : st.throttleDoc = some d0) (htm : st.throttleTimeout = some t) :
    ((suppressLint st document).throttleTimeout = none ↔ document = d0) ∧
    (document ≠ d0 → suppressLint st document = st) ∧
    (document = d0 → suppressLint st document
        = { st with throttleDoc := none, throttleTimeout := none,
                    timers := st.timers.filter (fun tm => tm.id ≠ t) }) ∧
    (∀ dl, document ≠ d0 → st.timers = [⟨t, d0, dl⟩] →
      (flushAll (suppressLint st document)).lints = st.lints ++ [(dl, d0)]) := by
  have hsup : document ≠ d0 → suppressLint st document = st := by
    intro h
    unfold suppressLint
    rw [htm, hdoc]
    simp [h]
  refine ⟨?_, hsup, ?_, ?_⟩
  · constructor
    · intro hnone
      by_contra h
      rw [hsup h, htm] at hnone
      exact Option.noConfusion hnone
    · intro h
      unfold suppressLint
      rw [htm, hdoc]
      simp [h]
  · intro h
    unfold suppressLint
    rw [htm, hdoc]
    simp [h]
  · intro dl hne htimers
    rw [hsup hne]
    simp [flushAll, fireDue, fireDueFuel, pickNext, maxDeadline, fireTimer, suppressLint,
      htimers, htm, hdoc]

/-- Witness for C5: a pending timer for one document instance survives
`suppressLint` called with a different instance under the same path, and
still fires. -/
theorem C5_suppress_identity_witness :
    suppressLint (armedState ⟨0, "markdown", "a.task.md", ""⟩ 5 0) ⟨1, "markdown", "a.task.md", ""⟩
      = armedState ⟨0, "markdown", "a.task.md", ""⟩ 5 0 ∧
    (flushAll (suppressLint (armedState ⟨0, "markdown", "a.task.md", ""⟩ 5 0)
      ⟨1, "markdown", "a.task.md", ""⟩)).lints = [(505, ⟨0, "markdown", "a.task.md", ""⟩)] := by
  have h := C5_suppress_identity (armedState ⟨0, "markdown", "a.task.md", ""⟩ 5 0)
    ⟨1, "markdown", "a.task.md", ""⟩ ⟨0, "markdown", "a.task.md", ""⟩ 0 rfl rfl
  refine ⟨h.2.1 (by decide), ?_⟩
  have h2 := h.2.2.2 (5 + throttleDuration) (by decide) rfl
  simpa using h2

/-- C2 counterexample: for a document failing eligibility gate (a) (its
language id is "plain-text", not "markdown", even though it has the
recognized header), `lint` does not leave the diagnostic entry for the
document unchanged: the `finally` block still runs on the early return and
publishes the empty set, clearing the previously published diagnostic. -/
theorem C2_lint_ineligible_cex :
    getFilenameAndVersionForLinting
      ⟨".task.md", fun _ => some (some "1.0"), fun _ _ _ _ => Except.ok [], false⟩
      ⟨0, "plain-text", "a.task.md", "id: x"⟩ = none ∧
    lintRun ⟨".task.md", fun _ => some (some "1.0"), fun _ _ _ _ => Except.ok [], false⟩
      ⟨0, "plain-text", "a.task.md", "id: x"⟩
      (fun uri => if uri = "a.task.md"
        then some [⟨0, 1, "m", DiagnosticSeverity.warning, "bebras", none⟩] else none)
      "a.task.md"
      ≠ (fun uri => if uri = "a.task.md"
        then some [⟨0, 1, "m", DiagnosticSeverity.warning, "bebras", none⟩]
        else (none : Option (List Diagnostic))) "a.task.md" := by
  decide

/-- C2 amended: for every document failing eligibility gate (a) or (b),
`lint` performs exactly one publish for that document, of the empty
diagnostic set — the `finally` block runs on the early return, so prior
diagnostics of the document are cleared rather than left untouched —
while entries of other documents are unaffected. -/
theorem C2_lint_ineligible (env : LintEnv) (doc : TextDocument) (store : DiagStore)
    (h : getFilenameAndVersionForLinting env doc = none) :
    lintCalls env doc = [(doc.fsPath, [])] ∧
    lintRun env doc store doc.fsPath = some [] ∧
    ∀ uri, uri ≠ doc.fsPath → lintRun env doc store uri = store uri := by
  have hres : lintResult env doc = [] := by
    simp [lintResult, lintTryBody, h]
  refine ⟨?_, ?_, ?_⟩
  · simp [lintCalls, hres]
  · simp [lintRun, lintCalls, hres]
  · intro uri hne
    simp [lintRun, lintCalls, hne]

/-- Witness for the amended C2 theorem: the ineligible "plain-text"
document of the counterexample gets exactly one publish, of the empty
set. -/
theorem C2_lint_ineligible_witness :
    getFilenameAndVersionForLinting
      ⟨".task.md", fun _ => some (some "1.0"), fun _ _ _ _ => Except.ok [], false⟩
      ⟨0, "plain-text", "a.task.md", "id: x"⟩ = none ∧
    lintCalls ⟨".task.md", fun _ => some (some "1.0"), fun _ _ _ _ => Except.ok [], false⟩
      ⟨0, "plain-text", "a.task.md", "id: x"⟩ = [("a.task.md", [])] := by
  have h := C2_lint_ineligible
    ⟨".task.md", fun _ => some (some "1.0"), fun _ _ _ _ => Except.ok [], false⟩
    ⟨0, "plain-text", "a.task.md", "id: x"⟩ (fun _ => none) (by decide)
  exact ⟨by decide, h.1⟩

/-- C4: for an eligible document whose validator call throws, `lint` still
performs exactly one publish for the document — the single
`diagnosticCollection.set` sits in the `finally` block, which runs on all
control paths — and the published set is empty, so the thrown error clears
the document's diagnostics instead of leaving a stale set. -/
theorem C4_lint_throw_publishes_empty (env : LintEnv) (doc : TextDocument) (store : DiagStore)
    (fp v msg : String)
    (h1 : getFilenameAndVersionForLinting env doc = some (fp, v))
    (h2 : env.check doc.text fp env.strictChecks v = Except.error msg) :
    lintCalls env doc = [(doc.fsPath, [])] ∧
    lintRun env doc store doc.fsPath = some [] := by
  have hres : lintResult env doc = [] := by
    simp [lintResult, lintTryBody, h1, h2]
  exact ⟨by simp [lintCalls, hres], by simp [lintRun, lintCalls, hres]⟩

/-- Witness for C4: a validator that throws on an eligible document leads
to a single, empty publish for it. -/
theorem C4_lint_throw_publishes_empty_witness :
    getFilenameAndVersionForLinting
      ⟨".task.md", fun _ => some none, fun _ _ _ _ => Except.error "boom", false⟩
      ⟨0, "markdown", "a.task.md", "id: x"⟩ = some ("a.task.md", "1.0") ∧
    lintCalls ⟨".task.md", fun _ => some none, fun _ _ _ _ => Except.error "boom", false⟩
      ⟨0, "markdown", "a.task.md", "id: x"⟩ = [("a.task.md", [])] := by
  have h := C4_lint_throw_publishes_empty
    ⟨".task.md", fun _ => some none, fun _ _ _ _ => Except.error "boom", false⟩
    ⟨0, "markdown", "a.task.md", "id: x"⟩ (fun _ => none) "a.task.md" "1.0" "boom"
    (by decide) rfl
  exact ⟨by decide, h.1⟩

/-- C7: on a successful validation pass, each produced diagnostic's
severity is the image of the source record's `type` under the `switch` of
`lint`, one-to-one and in order; and that mapping yields `Error` exactly
for the type string `"error"` — every other type, `"warn"` or
unrecognized, yields `Warning`. -/
theorem C7_severity_mapping (env : LintEnv) (doc : TextDocument) (fp v : String)
    (outputs : List CheckOutput)
    (h1 : getFilenameAndVersionForLinting env doc = some (fp, v))
    (h2 : env.check doc.text fp env.strictChecks v = Except.ok outputs) :
    (lintResult env doc).map (fun dg => dg.severity)
      = outputs.map (fun o => severityFor o.type) ∧
    ∀ ty : String, severityFor ty = DiagnosticSeverity.error ↔ ty = "error" := by
  constructor
  · have hres : lintResult env doc = outputs.map mkDiag := by
      simp [lintResult, lintTryBody, h1, h2]
    rw [hres, List.map_map]
    rfl
  · intro ty
    unfold severityFor
    by_cases h : ty = "error"
    · simp [h]
    · by_cases h' : ty = "warn" <;> simp [h, h']

/-- Witness for C7: records typed "error", "warn" and an unrecognized
"wat" map to Error, Warning, Warning. -/
theorem C7_severity_mapping_witness :
    (lintResult
      ⟨".task.md", fun _ => some none, fun _ _ _ _ => Except.ok
        [⟨"error", 0, 1, "e", none⟩, ⟨"warn", 1, 2, "w", none⟩, ⟨"wat", 2, 3, "u", none⟩], false⟩
      ⟨0, "markdown", "a.task.md", "id: x"⟩).map (fun dg => dg.severity)
      = [DiagnosticSeverity.error, DiagnosticSeverity.warning, DiagnosticSeverity.warning] := by
  have h := C7_severity_mapping
    ⟨".task.md", fun _ => some none, fun _ _ _ _ => Except.ok
      [⟨"error", 0, 1, "e", none⟩, ⟨"warn", 1, 2, "w", none⟩, ⟨"wat", 2, 3, "u", none⟩], false⟩
    ⟨0, "markdown", "a.task.md", "id: x"⟩ "a.task.md" "1.0"
    [⟨"error", 0, 1, "e", none⟩, ⟨"warn", 1, 2, "w", none⟩, ⟨"wat", 2, 3, "u", none⟩]
    (by decide) rfl
  rw [h.1]
  decide

theorem scanGo_err (lines : List String) : ∀ (fuel i : Nat),
    (∀ k, i ≤ k → k < lines.length → jsStartsWith (lines.getD k "") " " = true) →
    scanGo lines i fuel = Except.error () := by
  intro fuel
  induction fuel with
  | zero => intro i _; rfl
  | succ fuel ih =>
    intro i h
    unfold scanGo
    by_cases hi : i < lines.length
    · rw [if_pos hi, if_pos (h i le_rfl hi)]
      exact ih (i + 1) (fun k hk1 hk2 => h k (by omega) hk2)
    · rw [if_neg hi]

theorem scanGo_ok (lines : List String) : ∀ (fuel i n : Nat),
    i ≤ n → n < lines.length → n - i < fuel →
    jsStartsWith (lines.getD n "") " " = false →
    (∀ k, i ≤ k → k < n → jsStartsWith (lines.getD k "") " " = true) →
    scanGo lines i fuel = Except.ok n := by
  intro fuel
  induction fuel with
  | zero => intro i n h1 _ h3 _ _; exact absurd h3 (by omega)
  | succ fuel ih =>
    intro i n hin hn hfuel hns hall
    unfold scanGo
    by_cases hi : i = n
    · subst hi
      rw [if_pos hn, if_neg (by rw [hns]; simp)]
    · have h1 : i < n := by omega
      have h2 : i < lines.length := by omega
      rw [if_pos h2, if_pos (hall i le_rfl h1)]
      exact ih (i + 1) n (by omega) hn (by omega) hns (fun k hk1 hk2 => hall k (by omega) hk2)

theorem scanFrom_err (lines : List String) (i : Nat)
    (h : ∀ k, i ≤ k → k < lines.length → jsStartsWith (lines.getD k "") " " = true) :
    scanFrom lines i = Except.error () :=
  scanGo_err lines _ i h

theorem scanFrom_ok (lines : List String) (i n : Nat)
    (hin : i ≤ n) (hn : n < lines.length)
    (hns : jsStartsWith (lines.getD n "") " " = false)
    (hall : ∀ k, i ≤ k → k < n → jsStartsWith (lines.getD k "") " " = true) :
    scanFrom lines i = Except.ok n :=
  scanGo_ok lines _ i n hin hn (by omega) hns hall

theorem scanCallsGo_le (lines : List String) : ∀ (fuel i : Nat), i ≤ lines.length →
    ∀ x ∈ scanCallsGo lines i fuel, x ≤ lines.length := by
  intro fuel
  induction fuel with
  | zero =>
    intro i hi x hx
    simp only [scanCallsGo, List.mem_singleton] at hx
    omega
  | succ fuel ih =>
    intro i hi x hx
    unfold scanCallsGo at hx
    by_cases h1 : i < lines.length
    · rw [if_pos h1] at hx
      by_cases h2 : jsStartsWith (lines.getD i "") " " = true
      · rw [if_pos h2] at hx
        rcases List.mem_cons.mp hx with h | h
        · omega
        · exact ih (i + 1) (by omega) x h
      · rw [if_neg h2] at hx
        simp only [List.mem_singleton] at hx
        omega
    · rw [if_neg h1] at hx
      simp only [List.mem_singleton] at hx
      omega

theorem scanCallsGo_mem_oob (lines : List String) : ∀ (fuel i : Nat),
    fuel = lines.length + 1 - i → i ≤ lines.length →
    (∀ k, i ≤ k → k < lines.length → jsStartsWith (lines.getD k "") " " = true) →
    lines.length ∈ scanCallsGo lines i fuel := by
  intro fuel
  induction fuel with
  | zero => intro i hf hi _; exact absurd hf (by omega)
  | succ fuel ih =>
    intro i hf hi hall
    unfold scanCallsGo
    by_cases h1 : i < lines.length
    · rw [if_pos h1, if_pos (hall i le_rfl h1)]
      exact List.mem_cons_of_mem _
        (ih (i + 1) (by omega) (by omega) (fun k hk1 hk2 => hall k (by omega) hk2))
    · have heq : i = lines.length := by omega
      rw [if_neg h1]
      simp [heq]

theorem scanCallsGo_le_stop (lines : List String) : ∀ (fuel i n : Nat),
    i ≤ n → n < lines.length → n - i < fuel →
    jsStartsWith (lines.getD n "") " " = false →
    (∀ k, i ≤ k → k < n → jsStartsWith (lines.getD k "") " " = true) →
    ∀ x ∈ scanCallsGo lines i fuel, x ≤ n := by
  intro fuel
  induction fuel with
  | zero => intro i n h1 _ h3 _ _; exact absurd h3 (by omega)
  | succ fuel ih =>
    intro i n hin hn hfuel hns hall x hx
    unfold scanCallsGo at hx
    by_cases hi : i = n
    · subst hi
      rw [if_pos hn, if_neg (by rw [hns]; simp)] at hx
      simp only [List.mem_singleton] at hx
      omega
    · have h1 : i < n := by omega
      have h2 : i < lines.length := by omega
      rw [if_pos h2, if_pos (hall i le_rfl h1)] at hx
      rcases List.mem_cons.mp hx with h | h
      · omega
      · exact ih (i + 1) n (by omega) hn (by omega) hns
          (fun k hk1 hk2 => hall k (by omega) hk2) x h

/-- C6 counterexample: a diagnostic carrying an `additions` payload on a
document whose every line after the flagged one begins with a space: the
forward scan runs past the last line, `doc.lineAt` throws, and the bridge
produces no edit at all instead of exactly one. -/
theorem C6_additions_insert_cex :
    createCommandCodeActions ⟨6, "markdown", "b.task.md", "support_files:\n  - x"⟩
      ⟨0, 1, "m", DiagnosticSeverity.warning, "bebras", some (QuickFix.additions ["fig1.svg"])⟩
      ⟨⟨0, 0⟩, ⟨0, 3⟩⟩ = Except.error () := by
  decide

/-- C6 amended: when some line after the request-range start does not
begin with a space, the bridge produces exactly one action with exactly
one edit for an `additions` payload: it inserts, at the start of line `n`
— the first line after the flagged one not beginning with a space, found
by the forward scan — one `"  - " + value + "\n"` line per new value;
when no such line exists the scan runs past the document, `lineAt`
throws, and no edit is produced. -/
theorem C6_additions_insert (doc : TextDocument) (diag : Diagnostic) (range : Range)
    (newValues : List String) (n : Nat)
    (hq : diag.quickFix = some (QuickFix.additions newValues))
    (hin : range.start.line + 1 ≤ n) (hlen : n < (docLines doc).length)
    (hn : jsStartsWith ((docLines doc).getD n "") " " = false)
    (hall : ∀ k, range.start.line + 1 ≤ k → k < n →
      jsStartsWith ((docLines doc).getD k "") " " = true) :
    createCommandCodeActions doc diag range
      = Except.ok [⟨"Insert missing values", [diag],
          [EditOp.insert doc.fsPath ⟨n, 0⟩
            (String.join (newValues.map fun v => "  - " ++ v ++ "\n"))]⟩] := by
  have hscan : scanFrom (docLines doc) (range.start.line + 1) = Except.ok n :=
    scanFrom_ok (docLines doc) (range.start.line + 1) n hin hlen hn hall
  simp [createCommandCodeActions, hq, hscan]

/-- Witness for the amended C6 theorem: an `additions` payload with two
new values on a flagged line followed by one indented line inserts two
"  - "-prefixed lines at the start of the first non-indented line. -/
theorem C6_additions_insert_witness :
    createCommandCodeActions ⟨5, "markdown", "b.task.md", "support_files:\n  - a.svg\nid: x"⟩
      ⟨0, 1, "m", DiagnosticSeverity.warning, "bebras",
        some (QuickFix.additions ["fig1.svg", "fig2.svg"])⟩
      ⟨⟨0, 0⟩, ⟨0, 3⟩⟩
      = Except.ok [⟨"Insert missing values",
          [⟨0, 1, "m", DiagnosticSeverity.warning, "bebras",
            some (QuickFix.additions ["fig1.svg", "fig2.svg"])⟩],
          [EditOp.insert "b.task.md" ⟨2, 0⟩ "  - fig1.svg\n  - fig2.svg\n"]⟩] := by
  have h := C6_additions_insert ⟨5, "markdown", "b.task.md", "support_files:\n  - a.svg\nid: x"⟩
    ⟨0, 1, "m", DiagnosticSeverity.warning, "bebras",
      some (QuickFix.additions ["fig1.svg", "fig2.svg"])⟩
    ⟨⟨0, 0⟩, ⟨0, 3⟩⟩ ["fig1.svg", "fig2.svg"] 2 rfl (by decide) (by decide) (by decide)
    (by
      intro k h1 h2
      have hk : k = 1 := by omega
      subst hk
      decide)
  exact h

/-- C10 counterexample: for a document whose every line after the request
range's start line begins with a space, the forward scan does ask for a
line number that is not strictly below the line count (it asks for
`lineCount` itself), and no edit is produced — `lineAt` throws on that
request. -/
theorem C10_scan_bounds_cex :
    ¬ (∀ x ∈ scanCalls (docLines ⟨7, "markdown", "c.task.md", "categories:\n  - foo"⟩) 1,
        x < (docLines ⟨7, "markdown", "c.task.md", "categories:\n  - foo"⟩).length) ∧
    createCommandCodeActions ⟨7, "markdown", "c.task.md", "categories:\n  - foo"⟩
      ⟨0, 1, "m", DiagnosticSeverity.warning, "bebras", some (QuickFix.additions ["x"])⟩
      ⟨⟨0, 0⟩, ⟨0, 4⟩⟩ = Except.error () := by
  constructor
  · intro h
    have h2 := h 2 (by decide)
    have hl : (docLines (⟨7, "markdown", "c.task.md", "categories:\n  - foo"⟩ : TextDocument)).length = 2 := by
      decide
    omega
  · decide

/-- C10 amended: for a request range starting inside the document, the
scan of the `additions` branch only ever asks `lineAt` for line numbers at
most `lineCount`; when every line after the range start begins with a
space it does ask for the out-of-range number `lineCount` — `lineAt`
throws and no edit is produced — and otherwise every request is strictly
below `lineCount` and exactly one action is produced. -/
theorem C10_scan_bounds (doc : TextDocument) (diag : Diagnostic) (range : Range)
    (newValues : List String)
    (hq : diag.quickFix = some (QuickFix.additions newValues))
    (hr : range.start.line < (docLines doc).length) :
    (∀ x ∈ scanCalls (docLines doc) (range.start.line + 1), x ≤ (docLines doc).length) ∧
    ((∀ k, range.start.line + 1 ≤ k → k < (docLines doc).length →
        jsStartsWith ((docLines doc).getD k "") " " = true) →
      (docLines doc).length ∈ scanCalls (docLines doc) (range.start.line + 1) ∧
      createCommandCodeActions doc diag range = Except.error ()) ∧
    ((∃ k, range.start.line + 1 ≤ k ∧ k < (docLines doc).length ∧
        jsStartsWith ((docLines doc).getD k "") " " = false) →
      (∀ x ∈ scanCalls (docLines doc) (range.start.line + 1), x < (docLines doc).length) ∧
      ∃ a, createCommandCodeActions doc diag range = Except.ok [a]) := by
  refine ⟨scanCallsGo_le (docLines doc) _ _ (by omega), ?_, ?_⟩
  · intro hall
    constructor
    · exact scanCallsGo_mem_oob (docLines doc) _ _ rfl (by omega) hall
    · have hscan : scanFrom (docLines doc) (range.start.line + 1) = Except.error () :=
        scanFrom_err (docLines doc) _ hall
      simp [createCommandCodeActions, hq, hscan]
  · intro hex
    have hn := Nat.find_spec hex
    set n := Nat.find hex with hndef
    have hall : ∀ k, range.start.line + 1 ≤ k → k < n →
        jsStartsWith ((docLines doc).getD k "") " " = true := by
      intro k h1 h2
      by_contra hb
      have hfalse : jsStartsWith ((docLines doc).getD k "") " " = false := by
        cases hx : jsStartsWith ((docLines doc).getD k "") " "
        · rfl
        · exact absurd hx hb
      exact Nat.find_min hex h2 ⟨h1, by omega, hfalse⟩
    constructor
    · intro x hx
      have := scanCallsGo_le_stop (docLines doc) _ _ n hn.1 hn.2.1 (by omega) hn.2.2 hall x hx
      omega
    · have hscan : scanFrom (docLines doc) (range.start.line + 1) = Except.ok n :=
        scanFrom_ok (docLines doc) _ n hn.1 hn.2.1 hn.2.2 hall
      exact ⟨⟨"Insert missing values", [diag],
        [EditOp.insert doc.fsPath ⟨n, 0⟩
          (String.join (newValues.map fun v => "  - " ++ v ++ "\n"))]⟩,
        by simp [createCommandCodeActions, hq, hscan]⟩

/-- Witness for the amended C10 theorem: on the all-indented document of
the counterexample, the scan requests the out-of-range line number 2 (the
line count) and the bridge produces no edit. -/
theorem C10_scan_bounds_witness :
    (docLines ⟨7, "markdown", "c.task.md", "categories:\n  - foo"⟩).length
      ∈ scanCalls (docLines ⟨7, "markdown", "c.task.md", "categories:\n  - foo"⟩) 1 ∧
    createCommandCodeActions ⟨7, "markdown", "c.task.md", "categories:\n  - foo"⟩
      ⟨0, 1, "m", DiagnosticSeverity.warning, "bebras", some (QuickFix.additions ["x"])⟩
      ⟨⟨0, 0⟩, ⟨0, 4⟩⟩ = Except.error () := by
  have h := C10_scan_bounds ⟨7, "markdown", "c.task.md", "categories:\n  - foo"⟩
    ⟨0, 1, "m", DiagnosticSeverity.warning, "bebras", some (QuickFix.additions ["x"])⟩
    ⟨⟨0, 0⟩, ⟨0, 4⟩⟩ ["x"] rfl (by decide)
  exact h.2.1 (by
    intro k h1 h2
    have hk : k = 1 := by
      have : (docLines (⟨7, "markdown", "c.task.md", "categories:\n  - foo"⟩ : TextDocument)).length = 2 := by decide
      omega
    subst hk
    decide)

/-- C8 counterexample: with the configuration file present but its content
unparsable, `JSON.parse` throws and `getDiscordLink` — which does not
catch it — propagates the error to its caller instead of returning
`undefined`. -/
theorem C8_getDiscordLink_cex :
    getDiscordLink (fun _ => some "notjson") (fun _ => none) none "f" "t1"
      = Except.error () := rfl

/-- C8 amended: `getDiscordLink` raises only when the configuration file
exists but is unparsable (the uncaught `JSON.parse` throw); a missing
configuration file, a parsed value whose `urlPattern` or `serverId` is
not a string or whose `channelIds` is null or not an object, and — once
loaded — a task id absent from the channel map all yield `undefined`,
while a mapped task id yields the URL template with the server id and
channel id substituted. -/
theorem C8_getDiscordLink_cases (fs : String → Option String)
    (parseJson : String → Option Json) (folderPath taskId : String) :
    (∀ c : DiscordCache, jget c.channelIds taskId = none →
      getDiscordLink fs parseJson (some c) folderPath taskId = Except.ok (some c, none)) ∧
    (∀ (c : DiscordCache) (ch : String), jget c.channelIds taskId = some (Json.str ch) →
      getDiscordLink fs parseJson (some c) folderPath taskId
        = Except.ok (some c, some (replaceFirst
            (replaceFirst c.urlPattern "${serverId}" c.serverId) "${channelId}" ch))) ∧
    (fs (folderPath ++ "/discord_channels.json") = none →
      getDiscordLink fs parseJson none folderPath taskId = Except.ok (none, none)) ∧
    (∀ content j, fs (folderPath ++ "/discord_channels.json") = some content →
      parseJson content = some j → loadDiscordCache j = none →
      getDiscordLink fs parseJson none folderPath taskId = Except.ok (none, none)) ∧
    (∀ content j, fs (folderPath ++ "/discord_channels.json") = some content →
      parseJson content = some j →
      ∃ r, getDiscordLink fs parseJson none folderPath taskId = Except.ok r) ∧
    (∀ content, fs (folderPath ++ "/discord_channels.json") = some content →
      parseJson content = none →
      getDiscordLink fs parseJson none folderPath taskId = Except.error ()) := by
  refine ⟨?_, ?_, ?_, ?_, ?_, ?_⟩
  · intro c h
    simp [getDiscordLink, discordSubst, h]
  · intro c ch h
    simp [getDiscordLink, discordSubst, h, jsToStr]
  · intro h
    simp [getDiscordLink, h]
  · intro content j h1 h2 h3
    simp [getDiscordLink, h1, h2, h3]
  · intro content j h1 h2
    cases h3 : loadDiscordCache j with
    | none => exact ⟨(none, none), by simp [getDiscordLink, h1, h2, h3]⟩
    | some c => exact ⟨(some c, discordSubst c taskId), by simp [getDiscordLink, h1, h2, h3]⟩
  · intro content h1 h2
    simp [getDiscordLink, h1, h2]

/-- Witness for the amended C8 theorem: a loaded configuration substitutes
server and channel id into the template; an unparsable configuration file
raises. -/
theorem C8_getDiscordLink_cases_witness :
    getDiscordLink (fun _ => none) (fun _ => none)
      (some ⟨"u/${serverId}/${channelId}", "S", Json.obj [("t1", Json.str "C")]⟩) "f" "t1"
      = Except.ok (some ⟨"u/${serverId}/${channelId}", "S", Json.obj [("t1", Json.str "C")]⟩,
          some "u/S/C") ∧
    getDiscordLink (fun _ => some "nope") (fun _ => none) none "f" "t1"
      = Except.error () := by
  constructor
  · have h := (C8_getDiscordLink_cases (fun _ => none) (fun _ => none) "f" "t1").2.1
      ⟨"u/${serverId}/${channelId}", "S", Json.obj [("t1", Json.str "C")]⟩ "C" rfl
    exact h
  · exact (C8_getDiscordLink_cases (fun _ => some "nope") (fun _ => none) "f" "t1").2.2.2.2.2
      "nope" rfl rfl

theorem find?_append_none {α : Type} (l₁ l₂ : List α) (p : α → Bool)
    (h : l₁.find? p = none) : (l₁ ++ l₂).find? p = l₂.find? p := by
  induction l₁ with
  | nil => rfl
  | cons a l ih =>
    cases hp : p a with
    | true =>
      rw [List.find?_cons_of_pos _ hp] at h
      exact absurd h (by simp)
    | false =>
      rw [List.find?_cons_of_neg _ (by simp [hp])] at h
      rw [List.cons_append, List.find?_cons_of_neg _ (by simp [hp])]
      exact ih h

/-- C9: on a folder whose completion file is missing, `getAuthorCompletions`
returns the empty list and caches it under the folder path; a second call
with the same folder path — against any file system whatsoever, in
particular one where the completion file now exists — hits the cache and
returns the same empty list without touching the file system. -/
theorem C9_authors_missing_cached (fs : String → Option String) (cache : AuthorCache)
    (folderPath : String)
    (hmiss : cacheGet cache folderPath = none)
    (hfile : fs (folderPath ++ "/authors_completion.txt") = none) :
    (getAuthorCompletions fs cache folderPath).2 = [] ∧
    cacheGet (getAuthorCompletions fs cache folderPath).1 folderPath = some [] ∧
    ∀ fs2 : String → Option String,
      getAuthorCompletions fs2 (getAuthorCompletions fs cache folderPath).1 folderPath
        = ((getAuthorCompletions fs cache folderPath).1, []) := by
  have hfind : cache.find? (fun p => p.1 == folderPath) = none := by
    unfold cacheGet at hmiss
    cases hf : cache.find? (fun p => p.1 == folderPath)
    · rfl
    · rw [hf] at hmiss
      exact absurd hmiss (by simp)
  have h1 : getAuthorCompletions fs cache folderPath = (cache ++ [(folderPath, [])], []) := by
    unfold getAuthorCompletions
    rw [hmiss]
    simp [hfile, cacheSet, hfind]
  have h2 : cacheGet (cache ++ [(folderPath, [])]) folderPath = some [] := by
    unfold cacheGet
    rw [find?_append_none _ _ _ hfind]
    simp
  refine ⟨by rw [h1], by rw [h1]; exact h2, ?_⟩
  intro fs2
  rw [h1]
  unfold getAuthorCompletions
  rw [h2]

/-- Witness for C9: first call on an empty file system caches the empty
list for folder "f"; the second call still returns the empty list even
though the file system now holds a completion file with two names. -/
theorem C9_authors_missing_cached_witness :
    (getAuthorCompletions (fun _ => none) [] "f").2 = [] ∧
    getAuthorCompletions (fun _ => some "Alice\nBob")
      (getAuthorCompletions (fun _ => none) [] "f").1 "f"
      = ((getAuthorCompletions (fun _ => none) [] "f").1, []) := by
  have h := C9_authors_missing_cached (fun _ => none) [] "f" rfl rfl
  exact ⟨h.1, h.2.2 _⟩
